import Mathlib

/-!
A shallow embedding of the cmdstruct code: the declaration-time attribute
parsing performed by the two proc-macros (the derive variant in
macros/src/lib.rs and the attribute variant in src/lib.rs) and the runtime
behaviour of the `command()` method that these macros generate.
-/

namespace Cmdstruct

/-! ### A model of the pieces of the syn attribute AST that the code uses -/

/-- The value attached to a nested meta item: either a string literal
(parsed by `value.parse::<LitStr>()`) or a path (`value.parse::<Path>()`). -/
inductive MetaValue where
  | str (s : String)
  | path (p : String)
  deriving DecidableEq

/-- One nested meta item inside a list attribute, as visited by
`parse_nested_meta`: a path plus an optional `= value` part. -/
structure NestedMeta where
  path : String
  value : Option MetaValue
  deriving DecidableEq

/-- `syn::AttrStyle`. -/
inductive AttrStyle where
  | outer
  | inner
  deriving DecidableEq

/-- `syn::Meta`: a bare path `#[arg]`, a list `#[arg(...)]`, or a
name-value `executable = "test"`. -/
inductive Meta where
  | path (p : String)
  | list (p : String) (nested : List NestedMeta)
  | nameValue (p : String) (value : MetaValue)
  deriving DecidableEq

/-- `Meta::path()`: the leading path of any meta form. -/
def Meta.pathOf : Meta → String
  | .path p => p
  | .list p _ => p
  | .nameValue p _ => p

/-- `syn::Attribute`: style plus meta. -/
structure Attribute where
  style : AttrStyle
  meta : Meta
  deriving DecidableEq

/-- `syn::Error`: a span (modelled as the name of the syntax element the
error points at) and a message. -/
structure SynError where
  span : String
  msg : String
  deriving DecidableEq

/-- `syn::Field` restricted to what the code reads: the optional ident,
the attribute list, and the type (opaque here). -/
structure Field where
  ident : Option String
  attrs : List Attribute
  ty : String
  deriving DecidableEq

/-- `syn::Data` restricted to the shapes the derive distinguishes:
a struct with named fields, or anything else. -/
inductive Data where
  | structNamed (fields : List Field)
  | unsupported
  deriving DecidableEq

/-- `syn::DeriveInput` restricted to what `Command::parse` reads. -/
structure DeriveInput where
  attrs : List Attribute
  ident : String
  data : Data
  deriving DecidableEq

/-- Left fold with early exit, the semantics of `parse_nested_meta`
visiting items in order and stopping at the first error. -/
def foldExcept {σ α : Type} (f : σ → α → Except SynError σ) : σ → List α → Except SynError σ
  | s, [] => Except.ok s
  | s, a :: as =>
    match f s a with
    | Except.error e => Except.error e
    | Except.ok s' => foldExcept f s' as

/-- The semantics of `iter().map(f).collect::<Result<Vec<_>>>()`:
map in order, short-circuiting at the first error. -/
def mapExcept {α β : Type} (f : α → Except SynError β) : List α → Except SynError (List β)
  | [] => Except.ok []
  | a :: as =>
    match f a with
    | Except.error e => Except.error e
    | Except.ok b =>
      match mapExcept f as with
      | Except.error e => Except.error e
      | Except.ok bs => Except.ok (b :: bs)

/-! ### Declaration-time parsing, derive variant (macros/src/lib.rs) -/

/-- `enum Executable` of macros/src/lib.rs: a fixed string or a path to a
function invoked with the instance. -/
inductive Executable where
  | const (s : String)
  | function (p : String)
  deriving DecidableEq

/-- The closure passed to `parse_nested_meta` inside
`CommandAttributes::parse`: `executable = <string>` or
`executable_fn = <path>`; each match overwrites the accumulator. -/
def parseExecMeta (sp : String) (acc : Option Executable) (m : NestedMeta) :
    Except SynError (Option Executable) :=
  if m.path = "executable" then
    match m.value with
    | some (MetaValue.str s) => Except.ok (some (Executable.const s))
    | _ => Except.error ⟨m.path, "expected string literal"⟩
  else if m.path = "executable_fn" then
    match m.value with
    | some (MetaValue.path p) => Except.ok (some (Executable.function p))
    | _ => Except.error ⟨m.path, "expected path"⟩
  else
    (fun _ => Except.error ⟨sp, "Unsupported attribute"⟩) acc

/-- One step of the loop over `derive_input.attrs` in
`CommandAttributes::parse`: attributes whose path is not `command` are
skipped, as are `command` attributes that are not list-shaped. -/
def parseCommandAttr (acc : Option Executable) (attr : Attribute) :
    Except SynError (Option Executable) :=
  if attr.meta.pathOf = "command" then
    match attr.meta with
    | Meta.list _ nested => foldExcept (parseExecMeta "command") acc nested
    | _ => Except.ok acc
  else Except.ok acc

/-- `CommandAttributes::parse`: scan all attributes, then fail with the
missing-executable error if none set the executable. -/
def CommandAttributes.parse (attrs : List Attribute) (sp : String) :
    Except SynError Executable :=
  match foldExcept parseCommandAttr none attrs with
  | Except.error e => Except.error e
  | Except.ok none => Except.error ⟨sp, "No executable defined for command"⟩
  | Except.ok (some e) => Except.ok e

/-- `enum ArgType`. -/
inductive ArgType where
  | option (name : String)
  | flag (name : String)
  | positional
  deriving DecidableEq

/-- `struct Arg`. -/
structure Arg where
  arg_type : ArgType
  ident : String
  ty : String
  deriving DecidableEq

/-- The closure passed to `parse_nested_meta` in
`parse_arg_with_attributes`: `option = <string>` or `flag = <string>`,
each allowed only when no arg type was recorded yet. -/
def parseArgMeta (acc : Option ArgType) (m : NestedMeta) :
    Except SynError (Option ArgType) :=
  if m.path = "option" then
    match acc with
    | none =>
      match m.value with
      | some (MetaValue.str s) => Except.ok (some (ArgType.option s))
      | _ => Except.error ⟨m.path, "expected string literal"⟩
    | some _ => Except.error ⟨m.path, "Only one argument type allowed."⟩
  else if m.path = "flag" then
    match acc with
    | none =>
      match m.value with
      | some (MetaValue.str s) => Except.ok (some (ArgType.flag s))
      | _ => Except.error ⟨m.path, "expected string literal"⟩
    | some _ => Except.error ⟨m.path, "Only one argument type allowed."⟩
  else Except.error ⟨m.path, "Unrecognized arg"⟩

/-- `parse_arg_with_attributes`: walk the nested metas of a list-shaped
`arg` attribute; if no arg type was found the attribute is kept, otherwise
the attribute is dropped and the arg type returned. -/
def parse_arg_with_attributes (attr : Attribute) (nested : List NestedMeta) :
    Except SynError (Option Attribute × Option ArgType) :=
  match foldExcept parseArgMeta none nested with
  | Except.error e => Except.error e
  | Except.ok none => Except.ok (some attr, none)
  | Except.ok (some t) => Except.ok (none, some t)

/-- `map_to_attr_or_arg`: only outer attributes are inspected; a
list-shaped `arg` attribute is parsed, a bare-path `arg` attribute is the
positional marker and is dropped, everything else is kept verbatim. -/
def map_to_attr_or_arg (attr : Attribute) :
    Except SynError (Option Attribute × Option ArgType) :=
  match attr.style with
  | AttrStyle.outer =>
    match attr.meta with
    | Meta.list p nested =>
      if p = "arg" then parse_arg_with_attributes attr nested
      else Except.ok (some attr, none)
    | Meta.path p =>
      if p = "arg" then Except.ok (none, some ArgType.positional)
      else Except.ok (some attr, none)
    | _ => Except.ok (some attr, none)
  | _ => Except.ok (some attr, none)

/-- `collect_arg`: classify every attribute of the field, write the kept
attributes back onto the field, and produce no arg, one arg, or the
too-many-args error depending on how many role tags were found. The first
component is the (possibly rewritten) field, modelling the in-place
mutation of `field.attrs`. -/
def collect_arg (field : Field) : Field × Option (Except SynError Arg) :=
  match field.ident with
  | none => (field, none)
  | some ident =>
    match mapExcept map_to_attr_or_arg field.attrs with
    | Except.error e => (field, some (Except.error e))
    | Except.ok results =>
      let keptAttrs := results.filterMap Prod.fst
      let argTypes := results.filterMap Prod.snd
      let field' : Field := { field with attrs := keptAttrs }
      match argTypes with
      | [t] => (field', some (Except.ok { arg_type := t, ident := ident, ty := field.ty }))
      | [] => (field', none)
      | _ :: _ :: _ => (field', some (Except.error ⟨ident, "Too many args"⟩))

/-- `named.iter_mut().filter_map(collect_arg).collect::<Result<Vec<_>>>()`:
fields are visited and rewritten in order; collection stops at the first
error, leaving the remaining fields untouched. Returns the rewritten
fields together with the collected result. -/
def collectArgsFields : List Field → List Field × Except SynError (List Arg)
  | [] => ([], Except.ok [])
  | f :: fs =>
    match collect_arg f with
    | (f', none) =>
      let r := collectArgsFields fs
      (f' :: r.1, r.2)
    | (f', some (Except.error e)) => (f' :: fs, Except.error e)
    | (f', some (Except.ok a)) =>
      let r := collectArgsFields fs
      (f' :: r.1,
        match r.2 with
        | Except.error e => Except.error e
        | Except.ok rest => Except.ok (a :: rest))

/-- `struct Command` of the derive variant. -/
structure Command where
  executable : Executable
  ident : String
  args : List Arg
  deriving DecidableEq

/-- `Command::parse` (derive variant): parse the command attributes, then
require a struct with named fields and collect its args. -/
def Command.parse (input : DeriveInput) : Except SynError Command :=
  match CommandAttributes.parse input.attrs input.ident with
  | Except.error e => Except.error e
  | Except.ok executable =>
    match input.data with
    | Data.structNamed fields =>
      match (collectArgsFields fields).2 with
      | Except.error e => Except.error e
      | Except.ok args =>
        Except.ok { executable := executable, ident := input.ident, args := args }
    | Data.unsupported =>
      Except.error ⟨input.ident, "Only structs with named fields supported."⟩

/-! ### Runtime semantics of the generated `command()` method -/

/-- The universe of field values used by the tests and the spec: integers,
characters, text, booleans (flag fields only), optional values, and
ordered sequences. -/
inductive Value where
  | int (n : Int)
  | char (c : Char)
  | str (s : String)
  | boolean (b : Bool)
  | opt (v : Option Value)
  | seq (vs : List Value)

mutual

/-- Modelled from the spec: the serialization capability (the crate-level
`Arg` trait) and its built-in implementations live in the crate root,
which is not among the given sources (only the generated code that calls
`cmdstruct::Arg::append_arg` / `append_option` and the tests are).
Following spec section 4.2: scalars render as one token, an absent
optional as zero tokens, a present one delegates, and a sequence
concatenates over its elements. Booleans are flag-only and have no
serializer, so they contribute no token here (no theorem depends on that
case). -/
def append_arg : Value → List String
  | Value.int n => [toString n]
  | Value.char c => [String.mk [c]]
  | Value.str s => [s]
  | Value.boolean _ => []
  | Value.opt none => []
  | Value.opt (some v) => append_arg v
  | Value.seq vs => append_arg_list vs

/-- Modelled from the spec: positional rendering of a sequence
concatenates element renderings in order. -/
def append_arg_list : List Value → List String
  | [] => []
  | v :: vs => append_arg v ++ append_arg_list vs

end

mutual

/-- Modelled from the spec: option-mode rendering. An absent optional
yields zero tokens (no name token); a present one delegates to the inner
value; a sequence repeats the name per element; any scalar renders as the
name token followed by its positional tokens. -/
def append_option (name : String) : Value → List String
  | Value.opt none => []
  | Value.opt (some v) => append_option name v
  | Value.seq vs => append_option_list name vs
  | v => name :: append_arg v

/-- Modelled from the spec: option-mode rendering of a sequence
concatenates element option renderings in order. -/
def append_option_list (name : String) : List Value → List String
  | [] => []
  | v :: vs => append_option name v ++ append_option_list name vs

end

/-- A scalar value: one whose rendering is a single bare token and whose
option rendering is the default name-then-token form. -/
def isScalar : Value → Bool
  | Value.int _ => true
  | Value.char _ => true
  | Value.str _ => true
  | _ => false

/-- An arbitrary implementation of the serialization capability. The
generated code is parametric in it: flag emission in particular must not
consult it. -/
structure Serializer where
  appendArg : Value → List String
  appendOption : Value → String → List String

/-- The built-in serializer modelled from the spec. -/
def cmdstructSerializer : Serializer :=
  { appendArg := append_arg, appendOption := fun v name => append_option name v }

/-- Reading a flag field: the generated `if self.ident { ... }` only
type-checks for boolean fields, so only the boolean case is reachable. -/
def readBool : Value → Bool
  | Value.boolean b => b
  | _ => false

/-- The observable part of `std::process::Command`: the program and the
ordered argument tokens. -/
structure ProcessCommand where
  program : String
  args : List String
  deriving DecidableEq

/-- The binding of function paths (as named by `executable_fn = path`) to
the user functions they denote, each taking the record instance. -/
def FnEnv : Type := String → (String → Value) → String

/-- Resolution of the executable expression emitted by `Command::into`:
a fixed string verbatim, or `#func(&self)` invoked with the instance. -/
def Executable.resolve (env : FnEnv) (self : String → Value) : Executable → String
  | Executable.const s => s
  | Executable.function p => env p self

/-- The statement that `append_arg_tokens` emits for one arg, run against
a process command under construction: an option field calls the
serializer's option mode, a flag field appends its name exactly when the
boolean field is true, a positional field calls the positional mode. -/
def runArg (s : Serializer) (self : String → Value) (cmd : ProcessCommand) (a : Arg) :
    ProcessCommand :=
  match a.arg_type with
  | ArgType.option name => { cmd with args := cmd.args ++ s.appendOption (self a.ident) name }
  | ArgType.flag name =>
    if readBool (self a.ident) then { cmd with args := cmd.args ++ [name] } else cmd
  | ArgType.positional => { cmd with args := cmd.args ++ s.appendArg (self a.ident) }

/-- The tokens one arg contributes. -/
def emitArg (s : Serializer) (self : String → Value) (a : Arg) : List String :=
  match a.arg_type with
  | ArgType.option name => s.appendOption (self a.ident) name
  | ArgType.flag name => if readBool (self a.ident) then [name] else []
  | ArgType.positional => s.appendArg (self a.ident)

/-- The generated `command()` method: build the process command with the
resolved executable, then run the emitted per-arg statements in the order
the args were collected. -/
def Command.run (s : Serializer) (env : FnEnv) (c : Command) (self : String → Value) :
    ProcessCommand :=
  c.args.foldl (runArg s self) { program := Executable.resolve env self c.executable, args := [] }

/-- The arg, if any, that `collect_arg` yields for a field. -/
def argOf (f : Field) : Option Arg :=
  match (collect_arg f).2 with
  | some (Except.ok a) => some a
  | _ => none

/-- Whether an attribute defines a role, i.e. is consumed (dropped) by
`map_to_attr_or_arg` in exchange for an arg type. -/
def definesRole (a : Attribute) : Bool :=
  match map_to_attr_or_arg a with
  | Except.ok (_, some _) => true
  | _ => false

/-- A field with its role-defining attributes removed and every other
attribute kept in place. -/
def stripArgs (f : Field) : Field :=
  { f with attrs := f.attrs.filter fun a => !(definesRole a) }

/-! ### Declaration-time parsing, attribute variant (src/lib.rs) -/

/-- `syn::Fields` as the attribute variant distinguishes them. -/
inductive StructFields where
  | named (fields : List Field)
  | unsupported
  deriving DecidableEq

/-- `syn::ItemStruct` restricted to what the attribute variant reads and
re-emits: its own attributes (untouched), its ident, and its fields. -/
structure ItemStruct where
  attrs : List Attribute
  ident : String
  fields : StructFields
  deriving DecidableEq

/-- One step of the loop in the attribute variant of
`CommandAttributes::parse`: only `executable = <string literal>` metas are
accepted; the accumulator is overwritten on every match. -/
def parseAttrVariantMeta (acc : Option String) (m : Meta) : Except SynError (Option String) :=
  match m with
  | Meta.nameValue p v =>
    if p = "executable" then
      match v with
      | MetaValue.str s => (fun _ => Except.ok (some s)) acc
      | _ => Except.error ⟨p, "Unexpected value of executable"⟩
    else Except.error ⟨p, "Unsupported attribute"⟩
  | _ => Except.error ⟨m.pathOf, "Unsupported attribute type"⟩

/-- The attribute variant of `CommandAttributes::parse`: scan the metas of
the `#[command(...)]` invocation itself. -/
def AttrCommandAttributes.parse (metas : List Meta) : Except SynError String :=
  match foldExcept parseAttrVariantMeta none metas with
  | Except.error e => Except.error e
  | Except.ok none => Except.error ⟨"attrs", "No executable defined for command"⟩
  | Except.ok (some s) => Except.ok s

/-- `struct Command` of the attribute variant: it keeps the (rewritten)
item struct, which `into` re-emits in front of the generated impl. -/
structure AttrCommand where
  executable : String
  ident : String
  args : List Arg
  item_struct : ItemStruct
  deriving DecidableEq

/-- `Command::parse` (attribute variant): parse the invocation metas, then
require named fields and collect the args, rewriting the fields in place;
the rewritten struct is stored for re-emission. -/
def AttrCommand.parse (metas : List Meta) (item : ItemStruct) : Except SynError AttrCommand :=
  match AttrCommandAttributes.parse metas with
  | Except.error e => Except.error e
  | Except.ok executable =>
    match item.fields with
    | StructFields.named fields =>
      match collectArgsFields fields with
      | (fields', Except.ok args) =>
        Except.ok { executable := executable, ident := item.ident, args := args,
                    item_struct := { item with fields := StructFields.named fields' } }
      | (_, Except.error e) => Except.error e
    | StructFields.unsupported =>
      Except.error ⟨item.ident, "command only supports struct wit named fields"⟩

/-! ### Concrete material for the tests and witnesses -/

/-- The user resolver function of the `executable_fn` test:
`format!("test-{}", test.suffix)`. -/
def exeResolver (self : String → Value) : String :=
  match self "suffix" with
  | Value.str s => "test-" ++ s
  | _ => "test-"

/-- A function environment binding the path `exe` to `exeResolver`. -/
def exeEnv : FnEnv := fun p => if p = "exe" then exeResolver else fun _ => ""

/-- An environment with no bound functions, for records with a fixed
executable. -/
def emptyEnv : FnEnv := fun _ _ => ""

/-- A field list interleaving all three roles with a roleless field:
a positional, an option, a plain data field, and a flag. -/
def interleavedFields : List Field :=
  [ { ident := some "p", attrs := [⟨AttrStyle.outer, Meta.path "arg"⟩], ty := "String" },
    { ident := some "o",
      attrs := [⟨AttrStyle.outer, Meta.list "arg" [⟨"option", some (MetaValue.str "--o")⟩]⟩],
      ty := "String" },
    { ident := some "d", attrs := [], ty := "String" },
    { ident := some "f",
      attrs := [⟨AttrStyle.outer, Meta.list "arg" [⟨"flag", some (MetaValue.str "-f")⟩]⟩],
      ty := "bool" } ]

/-- A derive input using `interleavedFields` with a fixed executable. -/
def interleavedInput : DeriveInput :=
  { attrs := [⟨AttrStyle.outer, Meta.list "command" [⟨"executable", some (MetaValue.str "test")⟩]⟩],
    ident := "Test",
    data := Data.structNamed interleavedFields }

/-- The command that `Command.parse` produces for `interleavedInput`. -/
def interleavedCmd : Command :=
  { executable := Executable.const "test", ident := "Test",
    args := [ { arg_type := ArgType.positional, ident := "p", ty := "String" },
              { arg_type := ArgType.option "--o", ident := "o", ty := "String" },
              { arg_type := ArgType.flag "-f", ident := "f", ty := "bool" } ] }

/-- An instance for `interleavedFields`. -/
def interleavedSelf : String → Value := fun n =>
  if n = "p" then Value.str "pv"
  else if n = "o" then Value.str "ov"
  else if n = "f" then Value.boolean true
  else Value.str ""

/-- A field list for the attribute variant: one field carrying an option
role attribute, a non-arg attribute, and an empty `arg()` list. -/
def attrVariantFields : List Field :=
  [ { ident := some "a",
      attrs := [ ⟨AttrStyle.outer, Meta.list "arg" [⟨"option", some (MetaValue.str "--input")⟩]⟩,
                 ⟨AttrStyle.outer, Meta.path "serde"⟩,
                 ⟨AttrStyle.outer, Meta.list "arg" []⟩ ],
      ty := "String" } ]

/-- An item struct for the attribute variant over `attrVariantFields`. -/
def attrVariantItem : ItemStruct :=
  { attrs := [], ident := "Test", fields := StructFields.named attrVariantFields }

/-- The command the attribute variant produces for `attrVariantItem`. -/
def attrVariantCmd : AttrCommand :=
  { executable := "test", ident := "Test",
    args := [ { arg_type := ArgType.option "--input", ident := "a", ty := "String" } ],
    item_struct :=
      { attrs := [],
        ident := "Test",
        fields := StructFields.named
          [ { ident := some "a",
              attrs := [ ⟨AttrStyle.outer, Meta.path "serde"⟩,
                         ⟨AttrStyle.outer, Meta.list "arg" []⟩ ],
              ty := "String" } ] } }

/-- The executable mode a single nested meta denotes, when it is a valid
executable-resolution entry: `executable = <string>` or
`executable_fn = <path>`. -/
def execMetaInterp (m : NestedMeta) : Option Executable :=
  if m.path = "executable" then
    match m.value with
    | some (MetaValue.str s) => some (Executable.const s)
    | _ => none
  else if m.path = "executable_fn" then
    match m.value with
    | some (MetaValue.path p) => some (Executable.function p)
    | _ => none
  else none

/-! ### Helper lemmas -/

/-- One generated per-arg statement appends that arg's tokens and leaves
the program untouched. -/
theorem runArg_eq (s : Serializer) (self : String → Value) (cmd : ProcessCommand) (a : Arg) :
    runArg s self cmd a = ⟨cmd.program, cmd.args ++ emitArg s self a⟩ := by
  cases a with
  | mk t ident ty =>
    cases t <;> simp [runArg, emitArg]
    split <;> simp

/-- Running the per-arg statements in order appends the concatenation of
the per-arg token lists, in that order. -/
theorem foldl_runArg (s : Serializer) (self : String → Value) (l : List Arg)
    (cmd : ProcessCommand) :
    l.foldl (runArg s self) cmd = ⟨cmd.program, cmd.args ++ (l.map (emitArg s self)).flatten⟩ := by
  induction l generalizing cmd with
  | nil => simp
  | cons a l ih =>
    rw [List.foldl_cons, runArg_eq, ih]
    simp

/-- The generated `command()` method produces the resolved executable and
the concatenation, in arg order, of the per-arg token lists. -/
theorem Command.run_eq (s : Serializer) (env : FnEnv) (c : Command) (self : String → Value) :
    Command.run s env c self =
      ⟨Executable.resolve env self c.executable, (c.args.map (emitArg s self)).flatten⟩ := by
  unfold Command.run
  rw [foldl_runArg]
  simp

/-- When collecting the args of a field list succeeds, the collected args
are exactly the fields' args in declaration order, skipping the fields
that contribute none. -/
theorem collectArgsFields_ok (fields : List Field) (args : List Arg)
    (h : (collectArgsFields fields).2 = Except.ok args) :
    args = fields.filterMap argOf := by
  induction fields generalizing args with
  | nil =>
    simp [collectArgsFields] at h
    simp [h.symm]
  | cons f fs ih =>
    cases hc : collect_arg f with
    | mk f' r =>
      cases r with
      | none =>
        simp [collectArgsFields, hc] at h
        simp [List.filterMap_cons, argOf, hc, ih _ h]
      | some res =>
        cases res with
        | error e => simp [collectArgsFields, hc] at h
        | ok a =>
          simp only [collectArgsFields, hc] at h
          cases hr : (collectArgsFields fs).2 with
          | error e => rw [hr] at h; simp at h
          | ok rest =>
            rw [hr] at h
            simp at h
            simp [List.filterMap_cons, argOf, hc, h.symm, ih _ hr]

/-- When the derive succeeds, the args stored on the command are exactly
the fields' args in declaration order. -/
theorem Command.parse_args (input : DeriveInput) (fields : List Field) (c : Command)
    (hdata : input.data = Data.structNamed fields)
    (h : Command.parse input = Except.ok c) :
    c.args = fields.filterMap argOf := by
  unfold Command.parse at h
  cases he : CommandAttributes.parse input.attrs input.ident with
  | error e => rw [he] at h; simp at h
  | ok ex =>
    rw [he, hdata] at h
    dsimp only at h
    cases hcf : (collectArgsFields fields).2 with
    | error e => rw [hcf] at h; simp at h
    | ok args =>
      rw [hcf] at h
      simp at h
      rw [h.symm]
      exact collectArgsFields_ok fields args hcf

/-- On a scalar value, option-mode rendering is the default name token
followed by the positional tokens. -/
theorem append_option_scalar (name : String) (v : Value) (h : isScalar v = true) :
    append_option name v = name :: append_arg v := by
  cases v <;> simp [isScalar] at h <;> rfl

/-- A scalar always renders as exactly one positional token. -/
theorem append_arg_scalar (v : Value) (h : isScalar v = true) :
    ∃ t, append_arg v = [t] := by
  cases v <;> simp [isScalar] at h <;> exact ⟨_, rfl⟩

/-- The executable-meta closure returns exactly the mode a valid entry
denotes, overwriting whatever the accumulator held. -/
theorem parseExecMeta_interp (sp : String) (acc : Option Executable) (m : NestedMeta)
    (e : Executable) (h : execMetaInterp m = some e) :
    parseExecMeta sp acc m = Except.ok (some e) := by
  unfold execMetaInterp at h
  unfold parseExecMeta
  by_cases h1 : m.path = "executable"
  · rw [if_pos h1] at h ⊢
    cases hv : m.value with
    | none => rw [hv] at h; simp at h
    | some mv =>
      cases mv with
      | str s => rw [hv] at h; simp at h; simp [h]
      | path p => rw [hv] at h; simp at h
  · rw [if_neg h1] at h ⊢
    by_cases h2 : m.path = "executable_fn"
    · rw [if_pos h2] at h ⊢
      cases hv : m.value with
      | none => rw [hv] at h; simp at h
      | some mv =>
        cases mv with
        | str s => rw [hv] at h; simp at h
        | path p => rw [hv] at h; simp at h; simp [h]
    · rw [if_neg h2] at h
      simp at h

/-- A successfully classified attribute is either kept verbatim with no
role, or dropped in exchange for a role. -/
theorem map_to_attr_or_arg_shape (a : Attribute) (x : Option Attribute) (y : Option ArgType)
    (h : map_to_attr_or_arg a = Except.ok (x, y)) :
    (x = some a ∧ y = none) ∨ (x = none ∧ ∃ t, y = some t) := by
  cases a with
  | mk style m =>
    cases style with
    | inner =>
      simp [map_to_attr_or_arg] at h
      exact Or.inl ⟨h.1.symm, h.2.symm⟩
    | outer =>
      cases m with
      | path p =>
        simp only [map_to_attr_or_arg] at h
        by_cases hp : p = "arg"
        · rw [if_pos hp] at h
          simp at h
          exact Or.inr ⟨h.1.symm, ArgType.positional, h.2.symm⟩
        · rw [if_neg hp] at h
          simp at h
          exact Or.inl ⟨h.1.symm, h.2.symm⟩
      | nameValue p v =>
        simp [map_to_attr_or_arg] at h
        exact Or.inl ⟨h.1.symm, h.2.symm⟩
      | list p nested =>
        simp only [map_to_attr_or_arg] at h
        by_cases hp : p = "arg"
        · rw [if_pos hp] at h
          unfold parse_arg_with_attributes at h
          cases hf : foldExcept parseArgMeta none nested with
          | error e => rw [hf] at h; simp at h
          | ok o =>
            rw [hf] at h
            cases o with
            | none => simp at h; exact Or.inl ⟨h.1.symm, h.2.symm⟩
            | some t => simp at h; exact Or.inr ⟨h.1.symm, t, h.2.symm⟩
        · rw [if_neg hp] at h
          simp at h
          exact Or.inl ⟨h.1.symm, h.2.symm⟩

/-- The attributes kept by a successful classification of a field's
attribute list are exactly the original attributes that define no role,
each preserved unchanged and in place. -/
theorem mapExcept_kept (attrs : List Attribute) (rs : List (Option Attribute × Option ArgType))
    (h : mapExcept map_to_attr_or_arg attrs = Except.ok rs) :
    rs.filterMap Prod.fst = attrs.filter (fun a => !(definesRole a)) := by
  induction attrs generalizing rs with
  | nil =>
    simp [mapExcept] at h
    subst h
    simp
  | cons a as ih =>
    simp only [mapExcept] at h
    cases hr : map_to_attr_or_arg a with
    | error e => rw [hr] at h; simp at h
    | ok r =>
      rw [hr] at h
      cases hm : mapExcept map_to_attr_or_arg as with
      | error e => rw [hm] at h; simp at h
      | ok bs =>
        rw [hm] at h
        simp at h
        cases r with
        | mk x y =>
          rcases map_to_attr_or_arg_shape a x y hr with ⟨hx, hy⟩ | ⟨hx, t, hy⟩
          · have hrole : definesRole a = false := by
              subst hx hy
              simp [definesRole, hr]
            subst hx
            simp [h.symm, List.filterMap_cons, List.filter_cons, hrole, ih bs hm]
          · have hrole : definesRole a = true := by
              subst hx hy
              simp [definesRole, hr]
            subst hx
            simp [h.symm, List.filterMap_cons, List.filter_cons, hrole, ih bs hm]

/-- When classifying the attributes of a named field succeeds, the
rewritten field is the original with its role-defining attributes removed
and every other attribute kept unchanged — whatever the number of roles
found. -/
theorem collect_arg_fst (i : String) (attrs : List Attribute) (ty : String)
    (rs : List (Option Attribute × Option ArgType))
    (hm : mapExcept map_to_attr_or_arg attrs = Except.ok rs) :
    (collect_arg ⟨some i, attrs, ty⟩).1 = stripArgs ⟨some i, attrs, ty⟩ := by
  unfold collect_arg
  dsimp only
  rw [hm]
  dsimp only
  cases hl : rs.filterMap Prod.snd with
  | nil => simp [stripArgs, mapExcept_kept attrs rs hm]
  | cons t ts =>
    cases ts with
    | nil => simp [stripArgs, mapExcept_kept attrs rs hm]
    | cons t2 ts2 => simp [stripArgs, mapExcept_kept attrs rs hm]

/-- When classifying the attributes of a named field fails, `collect_arg`
reports that error. -/
theorem collect_arg_snd_error (i : String) (attrs : List Attribute) (ty : String) (e : SynError)
    (hm : mapExcept map_to_attr_or_arg attrs = Except.error e) :
    (collect_arg ⟨some i, attrs, ty⟩).2 = some (Except.error e) := by
  unfold collect_arg
  dsimp only
  rw [hm]

/-- When collecting the args of a named-field list succeeds, every field
is rewritten to its stripped form, in place. -/
theorem collectArgsFields_fst (fields : List Field) (args : List Arg)
    (hok : (collectArgsFields fields).2 = Except.ok args)
    (hnamed : ∀ f ∈ fields, f.ident.isSome) :
    (collectArgsFields fields).1 = fields.map stripArgs := by
  revert hok hnamed
  induction fields generalizing args with
  | nil => intro _ _; simp [collectArgsFields]
  | cons f fs ih =>
    intro hok hnamed
    obtain ⟨i, hi⟩ := Option.isSome_iff_exists.mp (hnamed f (List.mem_cons_self f fs))
    have htail : ∀ g ∈ fs, g.ident.isSome := fun g hg => hnamed g (List.mem_cons_of_mem f hg)
    cases f with
    | mk fid fattrs fty =>
      simp only at hi
      subst hi
      cases hm : mapExcept map_to_attr_or_arg fattrs with
      | error e =>
        have h2 := collect_arg_snd_error i fattrs fty e hm
        cases hc : collect_arg ⟨some i, fattrs, fty⟩ with
        | mk f' r =>
          rw [hc] at h2
          simp only at h2
          rw [h2] at hc
          simp [collectArgsFields, hc] at hok
      | ok rs =>
        have hfst := collect_arg_fst i fattrs fty rs hm
        cases hc : collect_arg ⟨some i, fattrs, fty⟩ with
        | mk f' r =>
          rw [hc] at hfst
          simp only at hfst
          cases r with
          | none =>
            simp only [collectArgsFields, hc] at hok ⊢
            rw [List.map_cons, hfst, ih args hok htail]
          | some res =>
            cases res with
            | error e => simp [collectArgsFields, hc] at hok
            | ok a =>
              simp only [collectArgsFields, hc] at hok ⊢
              cases hr : (collectArgsFields fs).2 with
              | error e2 => rw [hr] at hok; simp at hok
              | ok rest => rw [List.map_cons, hfst, ih rest hr htail]

/-! ### The claims -/

/-- C1, counterexample: a record declaring both a fixed `executable`
string and an `executable_fn` function reference does not fail at
declaration time — `Command.parse` succeeds and the record is compiled,
with the last declared mode winning. -/
theorem conflicting_executable_not_rejected :
    Command.parse
        { attrs := [⟨AttrStyle.outer, Meta.list "command"
            [⟨"executable", some (MetaValue.str "test")⟩,
             ⟨"executable_fn", some (MetaValue.path "exe")⟩]⟩],
          ident := "Test", data := Data.structNamed [] }
      = Except.ok { executable := Executable.function "exe", ident := "Test", args := [] } :=
  rfl

/-- C1, amended: declaring more than one executable-resolution mode is
not a definition error; each valid entry silently overwrites the previous
one, so parsing succeeds with the last declared mode. -/
theorem conflicting_executable_last_wins (st : AttrStyle) (sp : String)
    (m1 m2 : NestedMeta) (e1 e2 : Executable)
    (h1 : execMetaInterp m1 = some e1) (h2 : execMetaInterp m2 = some e2) :
    CommandAttributes.parse [⟨st, Meta.list "command" [m1, m2]⟩] sp = Except.ok e2 := by
  have hm1 := parseExecMeta_interp "command" none m1 e1 h1
  have hm2 := parseExecMeta_interp "command" (some e1) m2 e2 h2
  have hattr : parseCommandAttr none ⟨st, Meta.list "command" [m1, m2]⟩
      = Except.ok (some e2) := by
    have hfold : foldExcept (parseExecMeta "command") none [m1, m2]
        = Except.ok (some e2) := by
      simp [foldExcept, hm1, hm2]
    exact hfold
  simp [CommandAttributes.parse, foldExcept, hattr]

/-- C1 witness: both modes declared concretely; the later
`executable_fn = exe` wins. -/
theorem conflicting_executable_last_wins_witness :
    CommandAttributes.parse
        [⟨AttrStyle.outer, Meta.list "command"
          [⟨"executable", some (MetaValue.str "test")⟩,
           ⟨"executable_fn", some (MetaValue.path "exe")⟩]⟩] "Test"
      = Except.ok (Executable.function "exe") :=
  conflicting_executable_last_wins AttrStyle.outer "Test"
    ⟨"executable", some (MetaValue.str "test")⟩
    ⟨"executable_fn", some (MetaValue.path "exe")⟩
    (Executable.const "test") (Executable.function "exe") rfl rfl

/-- C2: for a record with a single `Option(name)` field, construction on
an absent optional yields zero tokens — in particular no name token —
and on a present optional holding a scalar rendering as `t` it yields
`[name, t]`. -/
theorem option_field_absent_and_present (env : FnEnv) (exe i fname oname ty : String)
    (v : Value) (t : String) (hscalar : isScalar v = true) (hrender : append_arg v = [t])
    (selfA selfP : String → Value)
    (ha : selfA fname = Value.opt none) (hp : selfP fname = Value.opt (some v)) :
    (Command.run cmdstructSerializer env
        { executable := Executable.const exe, ident := i,
          args := [{ arg_type := ArgType.option oname, ident := fname, ty := ty }] } selfA).args
      = []
    ∧ (Command.run cmdstructSerializer env
        { executable := Executable.const exe, ident := i,
          args := [{ arg_type := ArgType.option oname, ident := fname, ty := ty }] } selfP).args
      = [oname, t] := by
  constructor
  · rw [Command.run_eq]
    simp [emitArg, cmdstructSerializer, ha, append_option]
  · rw [Command.run_eq]
    simp [emitArg, cmdstructSerializer, hp, append_option,
      append_option_scalar oname v hscalar, hrender]

/-- C2 witness: the `option_optional` test shape, with inner value 0. -/
theorem option_field_absent_and_present_witness :
    (Command.run cmdstructSerializer emptyEnv
        { executable := Executable.const "test", ident := "Test",
          args := [{ arg_type := ArgType.option "--input", ident := "a", ty := "Option<usize>" }] }
        (fun _ => Value.opt none)).args = []
    ∧ (Command.run cmdstructSerializer emptyEnv
        { executable := Executable.const "test", ident := "Test",
          args := [{ arg_type := ArgType.option "--input", ident := "a", ty := "Option<usize>" }] }
        (fun _ => Value.opt (some (Value.int 0)))).args = ["--input", "0"] :=
  option_field_absent_and_present emptyEnv "test" "Test" "a" "--input" "Option<usize>"
    (Value.int 0) "0" rfl rfl (fun _ => Value.opt none)
    (fun _ => Value.opt (some (Value.int 0))) rfl rfl

/-- C3: a field carrying both `option` and `flag` role tags fails at
declaration time: within one `arg` list the second tag raises the
only-one-argument-type error; across two `arg` attributes the field
raises the too-many-args error naming the field; and the whole derive
fails, so the record is never compiled and construction never sees it. -/
theorem conflicting_roles_declaration_error (fname s1 s2 ty exe i : String) :
    (collect_arg ⟨some fname, [⟨AttrStyle.outer,
        Meta.list "arg" [⟨"option", some (MetaValue.str s1)⟩,
                         ⟨"flag", some (MetaValue.str s2)⟩]⟩], ty⟩).2
      = some (Except.error ⟨"flag", "Only one argument type allowed."⟩)
    ∧ (collect_arg ⟨some fname,
        [⟨AttrStyle.outer, Meta.list "arg" [⟨"option", some (MetaValue.str s1)⟩]⟩,
         ⟨AttrStyle.outer, Meta.list "arg" [⟨"flag", some (MetaValue.str s2)⟩]⟩], ty⟩).2
      = some (Except.error ⟨fname, "Too many args"⟩)
    ∧ Command.parse
        ⟨[⟨AttrStyle.outer, Meta.list "command" [⟨"executable", some (MetaValue.str exe)⟩]⟩], i,
          Data.structNamed [⟨some fname,
            [⟨AttrStyle.outer, Meta.list "arg" [⟨"option", some (MetaValue.str s1)⟩]⟩,
             ⟨AttrStyle.outer, Meta.list "arg" [⟨"flag", some (MetaValue.str s2)⟩]⟩], ty⟩]⟩
      = Except.error ⟨fname, "Too many args"⟩ :=
  ⟨rfl, rfl, rfl⟩

/-- C4: the tokens of a constructed command appear in the record's field
declaration order, whatever the mix of roles: they are the concatenation,
over the declared fields in order, of each field's per-arg tokens, with
roleless fields skipped in place. -/
theorem emission_follows_declaration_order (input : DeriveInput) (fields : List Field)
    (c : Command) (hdata : input.data = Data.structNamed fields)
    (hparse : Command.parse input = Except.ok c)
    (s : Serializer) (env : FnEnv) (self : String → Value) :
    (Command.run s env c self).args =
      ((fields.filterMap argOf).map (emitArg s self)).flatten := by
  rw [Command.run_eq]
  rw [Command.parse_args input fields c hdata hparse]

/-- C4 witness: a record interleaving positional, option, plain and flag
fields. -/
theorem emission_follows_declaration_order_witness :
    (Command.run cmdstructSerializer emptyEnv interleavedCmd interleavedSelf).args =
      ((interleavedFields.filterMap argOf).map
        (emitArg cmdstructSerializer interleavedSelf)).flatten :=
  emission_follows_declaration_order interleavedInput interleavedFields interleavedCmd
    rfl rfl cmdstructSerializer emptyEnv interleavedSelf

/-- C5: a sequence-typed `Option(name)` field with two scalar elements
emits the name token once per element: `[name, t1, name, t2]`. -/
theorem option_sequence_repeats_name (env : FnEnv) (exe i fname oname ty : String)
    (v1 v2 : Value) (t1 t2 : String)
    (h1 : isScalar v1 = true) (h2 : isScalar v2 = true)
    (r1 : append_arg v1 = [t1]) (r2 : append_arg v2 = [t2])
    (self : String → Value) (hself : self fname = Value.seq [v1, v2]) :
    (Command.run cmdstructSerializer env
        { executable := Executable.const exe, ident := i,
          args := [{ arg_type := ArgType.option oname, ident := fname, ty := ty }] } self).args
      = [oname, t1, oname, t2] := by
  rw [Command.run_eq]
  simp [emitArg, cmdstructSerializer, hself, append_option, append_option_list,
    append_option_scalar oname v1 h1, append_option_scalar oname v2 h2, r1, r2]

/-- C5 witness: elements "a" and "b" under option name "-n". -/
theorem option_sequence_repeats_name_witness :
    (Command.run cmdstructSerializer emptyEnv
        { executable := Executable.const "test", ident := "Test",
          args := [{ arg_type := ArgType.option "-n", ident := "a", ty := "Vec<String>" }] }
        (fun _ => Value.seq [Value.str "a", Value.str "b"])).args
      = ["-n", "a", "-n", "b"] :=
  option_sequence_repeats_name emptyEnv "test" "Test" "a" "-n" "Vec<String>"
    (Value.str "a") (Value.str "b") "a" "b" rfl rfl rfl rfl
    (fun _ => Value.seq [Value.str "a", Value.str "b"]) rfl

/-- C6: a record with a single `Flag(name)` boolean field emits exactly
`[name]` when the field is true and nothing when it is false, for every
serialization capability alike — flag emission never consults it. -/
theorem flag_true_name_false_nothing (s : Serializer) (env : FnEnv)
    (exe i fname name ty : String) (b : Bool)
    (self : String → Value) (hself : self fname = Value.boolean b) :
    (Command.run s env
        { executable := Executable.const exe, ident := i,
          args := [{ arg_type := ArgType.flag name, ident := fname, ty := ty }] } self).args
      = if b then [name] else [] := by
  rw [Command.run_eq]
  cases b with
  | true => simp [emitArg, hself, readBool]
  | false => simp [emitArg, hself, readBool]

/-- C6 witness: the `flag` test shape, with the field set to true. -/
theorem flag_true_name_false_nothing_witness :
    (Command.run cmdstructSerializer emptyEnv
        { executable := Executable.const "test", ident := "Test",
          args := [{ arg_type := ArgType.flag "-a", ident := "a", ty := "bool" }] }
        (fun _ => Value.boolean true)).args
      = if true then ["-a"] else [] :=
  flag_true_name_false_nothing cmdstructSerializer emptyEnv "test" "Test" "a" "-a" "bool"
    true (fun _ => Value.boolean true) rfl

/-- C7: end to end, the record `{a: "value"}` with field `a` annotated
`option = "--input"` and fixed executable `"test"` parses to the expected
command, and constructing it yields program `"test"` and tokens
`["--input", "value"]`. -/
theorem end_to_end_option_record :
    Command.parse
        { attrs := [⟨AttrStyle.outer,
            Meta.list "command" [⟨"executable", some (MetaValue.str "test")⟩]⟩],
          ident := "Test",
          data := Data.structNamed [⟨some "a",
            [⟨AttrStyle.outer, Meta.list "arg" [⟨"option", some (MetaValue.str "--input")⟩]⟩],
            "String"⟩] }
      = Except.ok { executable := Executable.const "test", ident := "Test",
                    args := [{ arg_type := ArgType.option "--input",
                               ident := "a", ty := "String" }] }
    ∧ Command.run cmdstructSerializer emptyEnv
        { executable := Executable.const "test", ident := "Test",
          args := [{ arg_type := ArgType.option "--input", ident := "a", ty := "String" }] }
        (fun _ => Value.str "value")
      = { program := "test", args := ["--input", "value"] } :=
  ⟨rfl, rfl⟩

/-- C8: a record declared with a `Computed` executable resolves the
program by invoking the named function with the instance passed to that
very construction call — two calls with different instances each use
their own — and concretely, with `{suffix: "abc"}` and a resolver
returning `"test-" ++ suffix`, the program is `"test-abc"`. -/
theorem computed_executable_fresh_resolution (s : Serializer) (env : FnEnv) (p i : String)
    (args : List Arg) (selfA selfB : String → Value) :
    ((Command.run s env
        { executable := Executable.function p, ident := i, args := args } selfA).program
      = env p selfA
    ∧ (Command.run s env
        { executable := Executable.function p, ident := i, args := args } selfB).program
      = env p selfB)
    ∧ Command.parse
        { attrs := [⟨AttrStyle.outer,
            Meta.list "command" [⟨"executable_fn", some (MetaValue.path "exe")⟩]⟩],
          ident := "Test", data := Data.structNamed [⟨some "suffix", [], "String"⟩] }
      = Except.ok { executable := Executable.function "exe", ident := "Test",
                    args := [] }
    ∧ (Command.run cmdstructSerializer exeEnv
        { executable := Executable.function "exe", ident := "Test", args := [] }
        (fun _ => Value.str "abc")).program = "test-abc" := by
  refine ⟨⟨?_, ?_⟩, rfl, rfl⟩
  · rw [Command.run_eq]
    rfl
  · rw [Command.run_eq]
    rfl

/-- C9: in the attribute-macro variant, a successful parse stores for
re-emission exactly the input struct with each field's role-defining
`arg` attributes removed and every other field attribute preserved
unchanged and in order. -/
theorem reemitted_struct_strips_roles (metas : List Meta) (item : ItemStruct)
    (fields : List Field) (c : AttrCommand)
    (hf : item.fields = StructFields.named fields)
    (hnamed : ∀ f ∈ fields, f.ident.isSome)
    (hparse : AttrCommand.parse metas item = Except.ok c) :
    c.item_struct = { item with fields := StructFields.named (fields.map stripArgs) } := by
  unfold AttrCommand.parse at hparse
  cases he : AttrCommandAttributes.parse metas with
  | error e => rw [he] at hparse; simp at hparse
  | ok exe =>
    rw [he, hf] at hparse
    dsimp only at hparse
    cases hcf : collectArgsFields fields with
    | mk fields' res =>
      rw [hcf] at hparse
      cases res with
      | error e => simp at hparse
      | ok args =>
        simp at hparse
        have hfst : fields' = fields.map stripArgs := by
          have h2 := collectArgsFields_fst fields args (by rw [hcf]) hnamed
          rw [hcf] at h2
          exact h2
        rw [← hparse]
        simp [hfst]

/-- C9 witness: a field with an option role attribute, a non-arg
attribute and an empty `arg()` list; only the role attribute is removed. -/
theorem reemitted_struct_strips_roles_witness :
    attrVariantCmd.item_struct
      = { attrVariantItem with
          fields := StructFields.named (attrVariantFields.map stripArgs) } :=
  reemitted_struct_strips_roles [Meta.nameValue "executable" (MetaValue.str "test")]
    attrVariantItem attrVariantFields attrVariantCmd rfl (by decide) rfl

/-- C10: an empty `#[arg()]` list parses with no definition error and
assigns no role — the attribute is kept on the field and the field
contributes no argument — unlike the bare `#[arg]` path form, which
assigns the positional role. -/
theorem empty_arg_list_assigns_no_role (fname ty exe i : String) :
    map_to_attr_or_arg ⟨AttrStyle.outer, Meta.list "arg" []⟩
      = Except.ok (some ⟨AttrStyle.outer, Meta.list "arg" []⟩, none)
    ∧ collect_arg ⟨some fname, [⟨AttrStyle.outer, Meta.list "arg" []⟩], ty⟩
      = (⟨some fname, [⟨AttrStyle.outer, Meta.list "arg" []⟩], ty⟩, none)
    ∧ Command.parse
        ⟨[⟨AttrStyle.outer, Meta.list "command" [⟨"executable", some (MetaValue.str exe)⟩]⟩], i,
          Data.structNamed [⟨some fname, [⟨AttrStyle.outer, Meta.list "arg" []⟩], ty⟩]⟩
      = Except.ok ⟨Executable.const exe, i, []⟩
    ∧ map_to_attr_or_arg ⟨AttrStyle.outer, Meta.path "arg"⟩
      = Except.ok (none, some ArgType.positional) :=
  ⟨rfl, rfl, rfl, rfl⟩

end Cmdstruct
